import Mathlib

/-!
Shallow embedding of the Command Center chat core: the conversation store
(src/components/chat/hooks/use-conversations.ts), its localStorage
persistence adapter, the streaming-response consumer (chat.tsx), and the
mock streaming endpoint (app/api/chat/route.ts).

Modelling conventions:
* ISO-8601 timestamp strings are modelled as naturals (`Nat`); the source
  only ever compares them through `new Date(...).getTime()`, and for the
  ISO format produced by `toISOString` that comparison is order-isomorphic
  to the numeric time value.
* The identifier generators (`generateConversationId`, `generateMessageId`)
  and the clock (`new Date()`) are modelled as explicit arguments of the
  operations that call them.
* React's `setState` updater pipeline is modelled as pure state
  transformation: each store operation maps the previous
  `ConversationsState` to the next one, exactly as the updater closures do.
-/

/-- Message role: the source type is the union `'user' | 'assistant'`. -/
inductive Role where
  | user : Role
  | assistant : Role
deriving DecidableEq

/-- ChatMessage record from `types/chat`. `isStreaming` is an optional
boolean field (`isStreaming?: boolean`), modelled as `Option Bool`. -/
structure ChatMessage where
  id : String
  role : Role
  content : String
  timestamp : Nat
  isStreaming : Option Bool
deriving DecidableEq

/-- Conversation record from `types/chat`. -/
structure Conversation where
  id : String
  agentId : String
  createdAt : Nat
  updatedAt : Nat
  messages : List ChatMessage
  unreadCount : Nat
deriving DecidableEq

/-- The persisted aggregate: the hook state `conversations` × `activeId`,
persisted as `{conversations, activeConversationId}`. -/
structure ConversationsState where
  conversations : List Conversation
  activeConversationId : Option String
deriving DecidableEq

/-- createConversation (use-conversations.ts:117-132): builds a conversation
with empty messages, zero unread, `createdAt = updatedAt = now`, PREPENDS it
(`[newConversation, ...prev]`) and makes it active. -/
def createConversation (s : ConversationsState) (agentId newId : String) (now : Nat) :
    ConversationsState :=
  { conversations :=
      { id := newId, agentId := agentId, createdAt := now, updatedAt := now,
        messages := [], unreadCount := 0 } :: s.conversations,
    activeConversationId := some newId }

/-- deleteConversation (use-conversations.ts:137-150): filters the
conversation out; if it was the active one, the new active id is
`remaining[0].id` (the head of the filtered list) or null when empty. -/
def deleteConversation (s : ConversationsState) (id : String) : ConversationsState :=
  let remaining := s.conversations.filter (fun c => c.id ≠ id)
  { conversations := remaining,
    activeConversationId :=
      if s.activeConversationId = some id then
        match remaining with
        | c :: _ => some c.id
        | [] => none
      else s.activeConversationId }

/-- setActiveConversation (use-conversations.ts:110-112). -/
def setActiveConversation (s : ConversationsState) (id : Option String) : ConversationsState :=
  { s with activeConversationId := id }

/-- addMessage (use-conversations.ts:155-182): appends the fully-formed
message to the named conversation, sets `updatedAt` to the message
timestamp, and increments `unreadCount` iff the target is not the active
conversation and the role is assistant
(`conversationId !== activeId && message.role === 'assistant'`). -/
def addMessage (s : ConversationsState) (conversationId : String) (role : Role)
    (content : String) (isStreaming : Option Bool) (msgId : String) (now : Nat) :
    ConversationsState :=
  let fullMessage : ChatMessage :=
    { id := msgId, role := role, content := content, timestamp := now,
      isStreaming := isStreaming }
  { s with
    conversations := s.conversations.map (fun conv =>
      if conv.id = conversationId then
        { conv with
          messages := conv.messages ++ [fullMessage],
          updatedAt := now,
          unreadCount :=
            if s.activeConversationId ≠ some conversationId ∧ role = Role.assistant then
              conv.unreadCount + 1
            else conv.unreadCount }
      else conv) }

/-- Partial ChatMessage (the `updates: Partial<ChatMessage>` argument of
updateLastMessage): every field optional; `none` means absent. -/
structure MessageUpdate where
  id : Option String := none
  role : Option Role := none
  content : Option String := none
  timestamp : Option Nat := none
  isStreaming : Option Bool := none
deriving DecidableEq

/-- Object spread `{...m, ...u}`: a field present in the update wins. -/
def applyUpdate (m : ChatMessage) (u : MessageUpdate) : ChatMessage :=
  { id := u.id.getD m.id,
    role := u.role.getD m.role,
    content := u.content.getD m.content,
    timestamp := u.timestamp.getD m.timestamp,
    isStreaming := u.isStreaming <|> m.isStreaming }

/-- Replace the last element of a message list by its updated version
(`messages[lastIndex] = {...messages[lastIndex], ...updates}` guarded by
`lastIndex >= 0`). -/
def updateLast (u : MessageUpdate) : List ChatMessage → List ChatMessage
  | [] => []
  | [m] => [applyUpdate m u]
  | m :: m2 :: rest => m :: updateLast u (m2 :: rest)

/-- updateLastMessage (use-conversations.ts:187-202). -/
def updateLastMessage (s : ConversationsState) (conversationId : String)
    (u : MessageUpdate) : ConversationsState :=
  { s with
    conversations := s.conversations.map (fun conv =>
      if conv.id = conversationId then
        { conv with messages := updateLast u conv.messages }
      else conv) }

/-- markAsRead (use-conversations.ts:207-214). -/
def markAsRead (s : ConversationsState) (id : String) : ConversationsState :=
  { s with
    conversations := s.conversations.map (fun conv =>
      if conv.id = id then { conv with unreadCount := 0 } else conv) }

/-- Lookup used by the derived `activeConversation`
(`conversations.find((c) => c.id === activeId)`). -/
def getConversation (s : ConversationsState) (id : String) : Option Conversation :=
  s.conversations.find? (fun c => c.id = id)

/-- Derived active conversation (use-conversations.ts:217-219). -/
def activeConversation (s : ConversationsState) : Option Conversation :=
  match s.activeConversationId with
  | some id => getConversation s id
  | none => none

/-- Comparator order of `sortedConversations`: the JS comparator
`(a, b) => time(b.updatedAt) - time(a.updatedAt)` sorts descending by
`updatedAt`; `a` may precede `b` exactly when `b.updatedAt ≤ a.updatedAt`. -/
def updatedAtGE (a b : Conversation) : Prop := b.updatedAt ≤ a.updatedAt

instance : DecidableRel updatedAtGE :=
  fun a b => inferInstanceAs (Decidable (b.updatedAt ≤ a.updatedAt))

instance : IsTotal Conversation updatedAtGE :=
  ⟨fun a b => Nat.le_total b.updatedAt a.updatedAt⟩

instance : IsTrans Conversation updatedAtGE :=
  ⟨fun _ _ _ hab hbc => Nat.le_trans hbc hab⟩

/-- sortedConversations (use-conversations.ts:228-232):
`[...conversations].sort((a, b) => ...)`. `Array.prototype.sort` is
stable (required since ES2019), so it is modelled by the stable
`List.insertionSort` with the comparator's order. -/
def sortedConversations (s : ConversationsState) : List Conversation :=
  List.insertionSort updatedAtGE s.conversations

/-- Derived total unread count (use-conversations.ts:235-237). -/
def totalUnread (s : ConversationsState) : Nat :=
  s.conversations.foldl (fun sum conv => sum + conv.unreadCount) 0

/-- The mark-as-read-on-activation effect in chat.tsx (lines 230-234):
`if (activeId && activeConversation?.unreadCount) markAsRead(activeId)`.
The guard is JS truthiness: an id is present, the active conversation
resolves, and its unreadCount is nonzero. -/
def markReadOnActivate (s : ConversationsState) : ConversationsState :=
  match s.activeConversationId with
  | some id =>
    match getConversation s id with
    | some c => if c.unreadCount ≠ 0 then markAsRead s id else s
    | none => s
  | none => s

/-- Debounce delay of the persistence adapter (DEBOUNCE_MS). -/
def DEBOUNCE_MS : Nat := 300

/-- Event-loop model of the debounced saveToStorage
(use-conversations.ts:68-83). A pending timer is `some (fireTime, state)`.
Each call event `(t, st)` happens at time `t`: a pending timer whose fire
time has already arrived fired beforehand (emitting its write); otherwise
`clearTimeout` cancels it. The call then schedules a fresh timer at
`t + DEBOUNCE_MS` capturing the state passed to this call. After the last
call, the surviving timer fires. Writes are returned as
`(writeTime, writtenState)` in order. -/
def debounceRun {σ : Type} (pending : Option (Nat × σ)) (writes : List (Nat × σ)) :
    List (Nat × σ) → List (Nat × σ)
  | [] => writes ++ pending.toList
  | (t, st) :: rest =>
    match pending with
    | some (ft, fs) =>
      if ft ≤ t then
        debounceRun (some (t + DEBOUNCE_MS, st)) (writes ++ [(ft, fs)]) rest
      else
        debounceRun (some (t + DEBOUNCE_MS, st)) writes rest
    | none => debounceRun (some (t + DEBOUNCE_MS, st)) writes rest

/-- The storage writes produced by a finite sequence of saveToStorage
calls, given as `(callTime, state)` events in chronological order. -/
def debounceWrites {σ : Type} (calls : List (Nat × σ)) : List (Nat × σ) :=
  debounceRun none [] calls

/-- Shorthand: the character list of a string literal. -/
def lc (s : String) : List Char := s.data

/-- JSON values as produced by `JSON.parse`. Numbers keep their source
lexeme verbatim; the repository only ever stores or sends integer numbers
(unread counts, token counts), for which the lexeme coincides with the
JavaScript rendering of the value. -/
inductive Json where
  | null : Json
  | bool : Bool → Json
  | num : List Char → Json
  | str : List Char → Json
  | arr : List Json → Json
  | obj : List (List Char × Json) → Json

/-- Whitespace skipping of the JSON grammar (space, tab, newline, return). -/
def skipWs : List Char → List Char
  | c :: rest => if c = ' ' ∨ c = '\t' ∨ c = '\n' ∨ c = '\r' then skipWs rest else c :: rest
  | [] => []

/-- Hexadecimal digit value. -/
def hexVal (c : Char) : Option Nat :=
  if '0' ≤ c ∧ c ≤ '9' then some (c.toNat - 48)
  else if 'a' ≤ c ∧ c ≤ 'f' then some (c.toNat - 87)
  else if 'A' ≤ c ∧ c ≤ 'F' then some (c.toNat - 55)
  else none

/-- Four hex digits to a code unit. -/
def hex4 (a b c d : Char) : Option Nat := do
  let va ← hexVal a
  let vb ← hexVal b
  let vc ← hexVal c
  let vd ← hexVal d
  some (((va * 16 + vb) * 16 + vc) * 16 + vd)

/-- Prepend a character to the content of a string-parse result. -/
def consTo (c : Char) (r : Option (List Char × List Char)) :
    Option (List Char × List Char) :=
  r.map (fun p => (c :: p.1, p.2))

/-- Body of a JSON string after the opening quote: returns the unescaped
content and the rest after the closing quote. Escapes are those of the
JSON grammar; a surrogate pair of unicode escapes yields one code point
and a lone surrogate escape is rejected (the one divergence from
`JSON.parse`, which tolerates lone surrogates; no claim exercises it). -/
def parseStringBody : List Char → Option (List Char × List Char)
  | [] => none
  | c :: rest =>
    if c = '"' then some ([], rest)
    else if c = '\\' then
      match rest with
      | [] => none
      | e :: rest2 =>
        if e = '"' then consTo '"' (parseStringBody rest2)
        else if e = '\\' then consTo '\\' (parseStringBody rest2)
        else if e = '/' then consTo '/' (parseStringBody rest2)
        else if e = 'b' then consTo '\x08' (parseStringBody rest2)
        else if e = 'f' then consTo '\x0C' (parseStringBody rest2)
        else if e = 'n' then consTo '\n' (parseStringBody rest2)
        else if e = 'r' then consTo '\r' (parseStringBody rest2)
        else if e = 't' then consTo '\t' (parseStringBody rest2)
        else if e = 'u' then
          match rest2 with
          | h1 :: h2 :: h3 :: h4 :: rest3 =>
            match hex4 h1 h2 h3 h4 with
            | none => none
            | some code =>
              if 0xD800 ≤ code ∧ code ≤ 0xDBFF then
                match rest3 with
                | '\\' :: 'u' :: g1 :: g2 :: g3 :: g4 :: rest4 =>
                  match hex4 g1 g2 g3 g4 with
                  | some low =>
                    if 0xDC00 ≤ low ∧ low ≤ 0xDFFF then
                      consTo (Char.ofNat (0x10000 + (code - 0xD800) * 0x400 + (low - 0xDC00)))
                        (parseStringBody rest4)
                    else none
                  | none => none
                | _ => none
              else if 0xDC00 ≤ code then none
              else consTo (Char.ofNat code) (parseStringBody rest3)
          | _ => none
        else none
    else if c.toNat < 32 then none
    else consTo c (parseStringBody rest)

/-- Digit run of a number lexeme. -/
def digitSpan (cs : List Char) : List Char × List Char :=
  (cs.takeWhile Char.isDigit, cs.dropWhile Char.isDigit)

/-- Number lexeme per the JSON grammar
(minus? int frac? exp?); returns the lexeme and the rest. -/
def parseNumberLex (cs : List Char) : Option (List Char × List Char) :=
  let (sign, cs1) :=
    match cs with
    | '-' :: r => (['-'], r)
    | r => ([], r)
  let intPart? : Option (List Char × List Char) :=
    match cs1 with
    | '0' :: r => some (['0'], r)
    | c :: _ =>
      if c.isDigit then
        some (digitSpan cs1)
      else none
    | [] => none
  match intPart? with
  | none => none
  | some (ip, cs2) =>
    let (frac, cs3) :=
      match cs2 with
      | '.' :: r =>
        let (ds, r2) := digitSpan r
        if ds = [] then ([], cs2) else ('.' :: ds, r2)
      | _ => ([], cs2)
    if frac = [] ∧ cs2 ≠ cs3 then none
    else
      match cs3 with
      | e :: r =>
        if e = 'e' ∨ e = 'E' then
          let (esign, r2) :=
            match r with
            | '+' :: rr => (['+'], rr)
            | '-' :: rr => (['-'], rr)
            | rr => ([], rr)
          let (ds, r3) := digitSpan r2
          if ds = [] then none
          else some (sign ++ ip ++ frac ++ e :: esign ++ ds, r3)
        else some (sign ++ ip ++ frac, cs3)
      | [] => some (sign ++ ip ++ frac, cs3)

mutual

/-- JSON value parser (fuelled; the fuel passed by `jsonParse` always
suffices, as every two fuel steps consume at least one character). -/
def parseVal : Nat → List Char → Option (Json × List Char)
  | 0, _ => none
  | f + 1, cs =>
    match skipWs cs with
    | 'n' :: 'u' :: 'l' :: 'l' :: rest => some (Json.null, rest)
    | 't' :: 'r' :: 'u' :: 'e' :: rest => some (Json.bool true, rest)
    | 'f' :: 'a' :: 'l' :: 's' :: 'e' :: rest => some (Json.bool false, rest)
    | '"' :: rest => (parseStringBody rest).map (fun p => (Json.str p.1, p.2))
    | '[' :: rest =>
      let cs2 := skipWs rest
      match cs2 with
      | ']' :: r2 => some (Json.arr [], r2)
      | _ => (parseItems f cs2).map (fun p => (Json.arr p.1, p.2))
    | '\x7b' :: rest =>
      let cs2 := skipWs rest
      match cs2 with
      | '\x7d' :: r2 => some (Json.obj [], r2)
      | _ => (parseMembers f cs2).map (fun p => (Json.obj p.1, p.2))
    | cs2 => (parseNumberLex cs2).map (fun p => (Json.num p.1, p.2))
termination_by structural f _ => f

/-- Comma-separated array items up to the closing bracket. -/
def parseItems : Nat → List Char → Option (List Json × List Char)
  | 0, _ => none
  | f + 1, cs => do
    let (v, r1) ← parseVal f cs
    match skipWs r1 with
    | ',' :: r2 => (parseItems f r2).map (fun p => (v :: p.1, p.2))
    | ']' :: r2 => some ([v], r2)
    | _ => none
termination_by structural f _ => f

/-- Comma-separated object members up to the closing brace. -/
def parseMembers : Nat → List Char → Option (List (List Char × Json) × List Char)
  | 0, _ => none
  | f + 1, cs =>
    match skipWs cs with
    | '"' :: rest => do
      let (k, r1) ← parseStringBody rest
      match skipWs r1 with
      | ':' :: r2 => do
        let (v, r3) ← parseVal f r2
        match skipWs r3 with
        | ',' :: r4 => (parseMembers f r4).map (fun p => ((k, v) :: p.1, p.2))
        | '\x7d' :: r4 => some ([(k, v)], r4)
        | _ => none
      | _ => none
    | _ => none
termination_by structural f _ => f

end

/-- Model of `JSON.parse`: parse one value, demand only trailing
whitespace, otherwise fail (JSON.parse throws a SyntaxError). -/
def jsonParse (cs : List Char) : Option Json :=
  match parseVal (2 * cs.length + 4) cs with
  | some (j, rest) => if skipWs rest = [] then some j else none
  | none => none

/-- Property lookup in an object literal: the later of two members with
the same key wins, as in JavaScript object construction. -/
def objLookup (fields : List (List Char × Json)) (key : List Char) : Option Json :=
  fields.foldl (fun acc kv => if kv.1 = key then some kv.2 else acc) none

/-- Named member access `value.key` on a non-null JSON value; `none` is
`undefined`. Arrays and strings expose `length`; numeric-index properties
are not needed by the code paths modelled here (the accessed keys are
`conversations`, `activeConversationId`, `messages`, `agentId`,
`content`). Member access on `null` throws and is handled by callers. -/
def jsProp (j : Json) (key : List Char) : Option Json :=
  match j with
  | Json.obj fields => objLookup fields key
  | Json.arr l => if key = lc "length" then some (Json.num (Nat.repr l.length).data) else none
  | Json.str s => if key = lc "length" then some (Json.num (Nat.repr s.length).data) else none
  | _ => none

/-- Zero test of a number lexeme (all mantissa digits zero). -/
def numIsZero (lex : List Char) : Bool :=
  let noSign :=
    match lex with
    | '-' :: r => r
    | r => r
  (noSign.takeWhile (fun c => c ≠ 'e' ∧ c ≠ 'E')).all (fun c => c == '0' || c == '.')

/-- JavaScript truthiness of a possibly-undefined JSON value
(`undefined`, `null`, `false`, `0`, and the empty string are falsy). -/
def truthy : Option Json → Bool
  | none => false
  | some Json.null => false
  | some (Json.bool b) => b
  | some (Json.num lex) => !(numIsZero lex)
  | some (Json.str s) => !(s.isEmpty)
  | some (Json.arr _) => true
  | some (Json.obj _) => true

/-- The empty fallback state of loadFromStorage:
`{conversations: [], activeConversationId: null}` as runtime values. -/
def emptyLoadedState : Json × Json := (Json.arr [], Json.null)

/-- loadFromStorage (use-conversations.ts:44-63), for a browser
environment, as a function of the raw storage slot content
(`none` = key absent). The `if (stored)` guard is truthiness, so the
empty string also falls through to the fallback. `JSON.parse` failure and
the TypeError thrown by `parsed.conversations` when the parsed value is
`null` are both caught by the surrounding try, yielding the fallback.
Otherwise the returned object is `parsed.conversations || []` and
`parsed.activeConversationId || null` — no shape validation. -/
def loadFromStorage (stored : Option String) : Json × Json :=
  match stored with
  | none => emptyLoadedState
  | some s =>
    if s = "" then emptyLoadedState
    else
      match jsonParse s.data with
      | none => emptyLoadedState
      | some Json.null => emptyLoadedState
      | some j =>
        let conv := jsProp j (lc "conversations")
        let act := jsProp j (lc "activeConversationId")
        (if truthy conv then conv.getD Json.null else Json.arr [],
         if truthy act then act.getD Json.null else Json.null)

mutual

/-- JavaScript string conversion of a JSON value, as used by template
interpolation. Number lexemes are returned verbatim (exact for the
canonical integer lexemes this repository produces). -/
def jsonToText : Json → List Char
  | Json.null => lc "null"
  | Json.bool true => lc "true"
  | Json.bool false => lc "false"
  | Json.num lex => lex
  | Json.str s => s
  | Json.arr l => jsonListText l
  | Json.obj _ => lc "[object Object]"
termination_by structural j => j

/-- Array stringification: elements joined with commas, null elements
rendered empty, as `Array.prototype.toString` does. -/
def jsonListText : List Json → List Char
  | [] => []
  | [Json.null] => []
  | [j] => jsonToText j
  | Json.null :: rest => ',' :: jsonListText rest
  | j :: rest => jsonToText j ++ ',' :: jsonListText rest
termination_by structural l => l
end

/-- String conversion of a possibly-undefined value. -/
def jsValText : Option Json → List Char
  | none => lc "undefined"
  | some j => jsonToText j

/-- Integer value of a pure-integer number lexeme, if it is one. -/
def lexToInt? (lex : List Char) : Option Int :=
  let digitsToNat (ds : List Char) : Nat :=
    ds.foldl (fun n c => n * 10 + (c.toNat - 48)) 0
  match lex with
  | '-' :: ds =>
    if ds ≠ [] ∧ ds.all Char.isDigit then some (-(digitsToNat ds : Int)) else none
  | ds =>
    if ds ≠ [] ∧ ds.all Char.isDigit then some (digitsToNat ds : Int) else none

/-- Property key for an integer index, as JavaScript renders it. -/
def intKey (i : Int) : List Char := (toString i).data

/-- Evaluation of `messages[messages.length - 1]` in the route handler.
Throws (`Except.error`) when `messages` is `undefined` or `null`
(`messages.length` raises a TypeError). Arrays yield their last element
(`undefined` when empty), strings their last character as a one-character
string, numbers and booleans `undefined`. For plain objects the lookup
goes through `length`: coercion of non-integer `length` values is not
modelled (such a request shape never arises from the client). -/
def lastMessageVal : Option Json → Except Unit (Option Json)
  | none => Except.error ()
  | some Json.null => Except.error ()
  | some (Json.arr l) => Except.ok l.getLast?
  | some (Json.str s) =>
    Except.ok (s.getLast?.map (fun c => Json.str [c]))
  | some (Json.num _) => Except.ok none
  | some (Json.bool _) => Except.ok none
  | some (Json.obj fields) =>
    match objLookup fields (lc "length") with
    | none => Except.ok (objLookup fields (lc "NaN"))
    | some (Json.num lex) =>
      match lexToInt? lex with
      | some n => Except.ok (objLookup fields (intKey (n - 1)))
      | none => Except.ok none
    | some _ => Except.ok none

/-- Evaluation of `lastMessage?.content`: optional chaining short-circuits
`undefined` and `null` to `undefined`; member access on other values never
throws. -/
def contentVal : Option Json → Option Json
  | none => none
  | some Json.null => none
  | some j => jsProp j (lc "content")

/-- The interpolated text `${lastMessage?.content || 'nothing'}`. -/
def saidText (lastMsg : Option Json) : List Char :=
  let v := contentVal lastMsg
  if truthy v then jsValText v else lc "nothing"

/-- The canned reply templates of the route handler (route.ts), keyed by
the property-key string of `agentId`, with the generic fallback
(`agentResponses[agentId] || generic`). Inherited prototype properties of
the record literal (for example a request with `agentId: "toString"`) are
not modelled; no claim depends on them. -/
def mockResponseFor (agentKey said : List Char) : List Char :=
  if agentKey = lc "murphie" then
    lc "Hey! Murphie here. You said: \"" ++ said ++
    lc "\"\n\nI'm your QA specialist. Ready to help with testing, visual regression, and quality assurance. This is a mock response — real AI integration coming soon!"
  else if agentKey = lc "eight" then
    lc "Eight here. You said: \"" ++ said ++
    lc "\"\n\nI handle dealership development and business logic. Mock response for now — stay tuned for the real deal!"
  else if agentKey = lc "console" then
    lc "Console reporting. You said: \"" ++ said ++
    lc "\"\n\nDevOps is my game. Deployments, builds, and infrastructure — I've got it covered. Mock response for now!"
  else if agentKey = lc "daily" then
    lc "Daily Brief. You said: \"" ++ said ++
    lc "\"\n\nI synthesize information and provide strategic summaries. This is a mock response — real AI integration coming soon!"
  else
    lc "Hello! I'm the Command Center AI assistant. You said: \"" ++ said ++
    lc "\"\n\nThis is a mock response to verify the chat foundation is working correctly. The real AI integration will come in a future milestone."

/-- Split on a single separator character, keeping empty pieces, as
`String.prototype.split` does with a one-character separator. -/
def splitCh (sep : Char) : List Char → List (List Char)
  | [] => [[]]
  | c :: rest =>
    if c = sep then [] :: splitCh sep rest
    else
      match splitCh sep rest with
      | l :: ls => (c :: l) :: ls
      | [] => [[c]]

/-- The word escaping of the route handler:
`word.replace(/"/g, BACKSLASH-QUOTE)` — each quote gains a backslash. -/
def escQuotes : List Char → List Char
  | [] => []
  | c :: rest => if c = '"' then '\\' :: '"' :: escQuotes rest else c :: escQuotes rest

/-- One emitted text chunk per word: `0:"<escaped word> "` plus newline. -/
def wordChunk (w : List Char) : List Char :=
  lc "0:\"" ++ escQuotes w ++ lc " \"\n"

/-- Metadata record with stop reason and token-usage placeholders. -/
def eRecord : List Char :=
  lc "e:\x7b\"finishReason\":\"stop\",\"usage\":\x7b\"promptTokens\":10,\"completionTokens\":50\x7d\x7d\n"

/-- Terminal metadata record. -/
def dRecord : List Char :=
  lc "d:\x7b\"finishReason\":\"stop\"\x7d\n"

/-- The destructuring `const { messages, agentId } = await req.json()`.
Unparseable bodies reject inside `req.json()`; a parsed `null` throws in
the destructuring itself. Both escape the handler uncaught. -/
def reqFields (body : List Char) : Except Unit (Option Json × Option Json) :=
  match jsonParse body with
  | none => Except.error ()
  | some Json.null => Except.error ()
  | some j => Except.ok (jsProp j (lc "messages"), jsProp j (lc "agentId"))

/-- POST (app/api/chat/route.ts): the full record sequence the mock
endpoint enqueues before closing the stream, or `Except.error` when the
handler throws (there is no try/catch in the handler). The 30 ms pacing
delay between chunks does not affect the emitted sequence and is not
modelled. -/
def POST (body : List Char) : Except Unit (List (List Char)) :=
  match reqFields body with
  | Except.error _ => Except.error ()
  | Except.ok (messagesV, agentV) =>
    match lastMessageVal messagesV with
    | Except.error _ => Except.error ()
    | Except.ok lastMsg =>
      let mockResponse := mockResponseFor (jsValText agentV) (saidText lastMsg)
      Except.ok ((splitCh ' ' mockResponse).map wordChunk ++ [eRecord, dRecord])

/-- Successful payload of an endpoint response, if any. -/
def getOk {α : Type} : Except Unit α → Option α
  | Except.ok a => some a
  | Except.error _ => none

/-- Line splitting of the consumer: `chunk.split('\n')`. -/
def splitLines : List Char → List (List Char) := splitCh '\n'

/-- Prefix of a line before its LAST double quote, if any: the capture of
the greedy regex `0:"(.*)"` once the `0:"` prefix is stripped. -/
def upToLastQuote : List Char → Option (List Char)
  | [] => none
  | c :: cs =>
    match upToLastQuote cs with
    | some p => some (c :: p)
    | none => if c = '"' then some [] else none

/-- Capture group of `line.match(/^0:"(.*)"/)`: the line must begin with
`0:"` and the group is the longest dot-matchable (newline-free) stretch
followed by a closing quote. -/
def textRecordPayload (line : List Char) : Option (List Char) :=
  match line with
  | c0 :: c1 :: c2 :: rest =>
    if c0 = '0' ∧ c1 = ':' ∧ c2 = '"' then
      upToLastQuote (rest.takeWhile (fun c => ¬ c = '\n'))
    else none
  | _ => none

/-- First unescaping pass of parseStreamChunk:
`.replace(/\\"/g, QUOTE)` (global, left to right, non-overlapping). -/
def replaceEscQuote : List Char → List Char
  | '\\' :: '"' :: rest => '"' :: replaceEscQuote rest
  | c :: rest => c :: replaceEscQuote rest
  | [] => []

/-- Second unescaping pass of parseStreamChunk: `.replace(/\\n/g, NL)`. -/
def replaceEscNewline : List Char → List Char
  | '\\' :: 'n' :: rest => '\n' :: replaceEscNewline rest
  | c :: rest => c :: replaceEscNewline rest
  | [] => []

/-- parseStreamChunk (chat.tsx:121-127): payload of a text record with
both unescaping passes applied, or the empty string for a non-matching
line. -/
def parseStreamChunk (line : List Char) : List Char :=
  match textRecordPayload line with
  | some p => replaceEscNewline (replaceEscQuote p)
  | none => []

/-- Observable state of the consumer read loop: the running accumulator
and the trace of contents passed to `updateLastMessage` so far. -/
structure ConsumerTrace where
  acc : List Char
  contentCalls : List (List Char)
deriving DecidableEq

/-- Per-line step of the consumer (chat.tsx:293-299): a truthy (nonempty)
parsed text is appended to the accumulator and reported through
`updateLastMessage`; a falsy one is skipped entirely. -/
def consumeLine (st : ConsumerTrace) (line : List Char) : ConsumerTrace :=
  let text := parseStreamChunk line
  if text = [] then st
  else { acc := st.acc ++ text, contentCalls := st.contentCalls ++ [st.acc ++ text] }

/-- Per-chunk step of the consumer: split the decoded chunk into lines
independently (no partial-line buffer is kept across chunks) and process
each line. -/
def consumeChunk (st : ConsumerTrace) (chunk : List Char) : ConsumerTrace :=
  (splitLines chunk).foldl consumeLine st

/-- The whole read loop over the decoded text chunks of a response body. -/
def consumeChunks (chunks : List (List Char)) : ConsumerTrace :=
  chunks.foldl consumeChunk { acc := [], contentCalls := [] }

/-- The consumer's effect on the store (chat.tsx:283-302): one
`updateLastMessage {content}` per reported accumulator value, then the
final `updateLastMessage {isStreaming: false}` once the reader signals
done. -/
def runStreamIntoStore (s : ConversationsState) (cid : String)
    (chunks : List (List Char)) : ConversationsState :=
  let tr := consumeChunks chunks
  let s1 := tr.contentCalls.foldl
    (fun st call => updateLastMessage st cid { content := some (String.mk call) }) s
  updateLastMessage s1 cid { isStreaming := some false }

/-- Spec-side notion for C1: the remaining conversation with the greatest
`updatedAt` (the claimed reassignment target of deleteConversation). -/
def mostRecentlyUpdated : List Conversation → Option Conversation
  | [] => none
  | c :: rest =>
    match mostRecentlyUpdated rest with
    | none => some c
    | some d => if c.updatedAt < d.updatedAt then some d else some c

/-- Timestamp of the last message, or creation time when there is none. -/
def lastStamp (c : Conversation) : Nat :=
  match c.messages.getLast? with
  | some m => m.timestamp
  | none => c.createdAt

/-- The C3 invariant for one conversation:
`updatedAt` equals the last message timestamp (or `createdAt` if empty). -/
def convTimestampOK (c : Conversation) : Prop := c.updatedAt = lastStamp c

/-- The C3 invariant over a whole state. -/
def stateTimestampOK (s : ConversationsState) : Prop :=
  ∀ c ∈ s.conversations, convTimestampOK c

instance (c : Conversation) : Decidable (convTimestampOK c) :=
  inferInstanceAs (Decidable (c.updatedAt = lastStamp c))

instance (s : ConversationsState) : Decidable (stateTimestampOK s) :=
  inferInstanceAs (Decidable (∀ c ∈ s.conversations, convTimestampOK c))

/-- Discriminator: is a JSON value an array. -/
def isJsonArr : Json → Bool
  | Json.arr _ => true
  | _ => false

/-- Spec-side consumer for C5, transcribing the claim: for EVERY line whose
payload matches the text-record pattern, append the unescaped payload and
record an updateLastMessage call with the accumulator (no nonemptiness
filter). -/
def claimTrace (lines : List (List Char)) : ConsumerTrace :=
  lines.foldl (fun st line =>
    match textRecordPayload line with
    | some p =>
      { acc := st.acc ++ replaceEscNewline (replaceEscQuote p),
        contentCalls := st.contentCalls ++ [st.acc ++ replaceEscNewline (replaceEscQuote p)] }
    | none => st) { acc := [], contentCalls := [] }

/-- Expected updateLastMessage content trace of the consumer over a record
sequence: the running accumulator after each record whose parsed text is
nonempty. -/
def runningCalls (acc0 : List Char) : List (List Char) → List (List Char)
  | [] => []
  | r :: rest =>
    let t := parseStreamChunk r
    if t = [] then runningCalls acc0 rest
    else (acc0 ++ t) :: runningCalls (acc0 ++ t) rest

/-- A chunk made of whole newline-terminated records. -/
def lineJoin (g : List (List Char)) : List Char :=
  (g.map (fun r => r ++ ['\n'])).flatten

/-- A text record of the stream protocol with the given quoted payload. -/
def textRecord (p : List Char) : List Char :=
  '0' :: ':' :: '"' :: (p ++ ['"'])

/-- Whitespace for the spec-side reading of C9
("whitespace-separated word"). -/
def isWsChar (c : Char) : Bool :=
  c = ' ' || c = '\n' || c = '\t' || c = '\r'

/-- Splitter into whitespace-separated words (empty pieces dropped). -/
def wsWordsAux : List Char → List Char → List (List Char)
  | [], acc => if acc = [] then [] else [acc.reverse]
  | c :: rest, acc =>
    if isWsChar c then
      if acc = [] then wsWordsAux rest [] else acc.reverse :: wsWordsAux rest []
    else wsWordsAux rest (c :: acc)

/-- Whitespace-separated words of a text. -/
def wsWords (cs : List Char) : List (List Char) := wsWordsAux cs []

/-- Spec-side C6 ordering: stable descending sort over the conversations in
insertion (creation) order. `createConversation` prepends, and no other
operation reorders the list, so for states reached by the store operations
the insertion order is the reverse of the internal list. -/
def sortedByInsertionOrderTies (s : ConversationsState) : List Conversation :=
  List.insertionSort updatedAtGE s.conversations.reverse

/-- Concrete store history for the C1 counterexample: three conversations
created at times 1, 2, 3 (active: the third), then a message appended to
the first at time 4. -/
def exDeleteState : ConversationsState :=
  addMessage
    (createConversation
      (createConversation
        (createConversation { conversations := [], activeConversationId := none } "x" "a" 1)
        "y" "b" 2)
      "z" "c" 3)
    "a" Role.user "hi" none "m1" 4

/-- Concrete state for the C3 counterexample: one conversation whose
invariant holds (`updatedAt` = timestamp 5 of its single message). -/
def exTimestampState : ConversationsState :=
  { conversations :=
      [{ id := "a", agentId := "x", createdAt := 0, updatedAt := 5,
         messages :=
           [{ id := "m1", role := Role.user, content := "hi", timestamp := 5,
              isStreaming := none }],
         unreadCount := 0 }],
    activeConversationId := some "a" }

/-- Concrete store history for the C6 counterexample: two conversations
created with the same timestamp. -/
def exTieState : ConversationsState :=
  createConversation
    (createConversation { conversations := [], activeConversationId := none } "x" "a" 5)
    "y" "b" 5

/-- Concrete request body for the C9 counterexample (end-to-end scenario D
of the specification). -/
def exC9Body : List Char :=
  lc "\x7b\"messages\":[\x7b\"role\":\"user\",\"content\":\"status?\"\x7d],\"agentId\":\"console\"\x7d"

/-- Concrete store history for the C5 scenario: a conversation with agent
murphie, a user message, and a streaming assistant placeholder. -/
def exStreamState : ConversationsState :=
  addMessage
    (addMessage
      (createConversation { conversations := [], activeConversationId := none } "murphie" "c1" 0)
      "c1" Role.user "hi" none "m1" 1)
    "c1" Role.assistant "" (some true) "m2" 2

/-- C1 counterexample: history `create a@1, create b@2, create c@3 (active),
message to a@4`; deleting the active conversation c makes b active (the
head of the remaining internal list, i.e. the most recently CREATED), while
the most recently UPDATED remaining conversation is a. -/
theorem c1_counterexample :
    (deleteConversation exDeleteState "c").activeConversationId = some "b" ∧
    (mostRecentlyUpdated (deleteConversation exDeleteState "c").conversations).map
      Conversation.id = some "a" ∧
    (some "b" : Option String) ≠ some "a" := by
  decide

/-- C1 amended: deleting the active conversation reassigns
`activeConversationId` to the FIRST remaining conversation of the internal
list (the most recently created remaining one), or null if none remain;
deleting while a different (or no) conversation is active leaves
`activeConversationId` unchanged; deleting an id that is neither stored
nor active leaves the whole state unchanged. -/
theorem c1_delete_semantics (s : ConversationsState) (id : String) :
    (s.activeConversationId = some id →
      (deleteConversation s id).activeConversationId =
        ((s.conversations.filter (fun c => c.id ≠ id)).head?).map Conversation.id) ∧
    (s.activeConversationId ≠ some id →
      (deleteConversation s id).activeConversationId = s.activeConversationId) ∧
    ((∀ c ∈ s.conversations, c.id ≠ id) → s.activeConversationId ≠ some id →
      deleteConversation s id = s) := by
  refine ⟨fun h => ?_, fun h => ?_, fun hall h => ?_⟩
  · show (if s.activeConversationId = some id then
        match s.conversations.filter (fun c => c.id ≠ id) with
        | c :: _ => some c.id
        | [] => none
      else s.activeConversationId) = _
    rw [if_pos h]
    cases s.conversations.filter (fun c => c.id ≠ id) <;> rfl
  · simp [deleteConversation, h]
  · have hfe : s.conversations.filter (fun c => c.id ≠ id) = s.conversations := by
      apply List.filter_eq_self.mpr
      intro a ha
      simpa using hall a ha
    cases s with
    | mk convs act => simp_all [deleteConversation]

/-- Witness for c1_delete_semantics at the concrete history. -/
theorem c1_delete_semantics_witness :
    (deleteConversation exDeleteState "c").activeConversationId =
      ((exDeleteState.conversations.filter (fun c => c.id ≠ "c")).head?).map
        Conversation.id :=
  (c1_delete_semantics exDeleteState "c").1 (by decide)

/-- Auxiliary: once a timer is pending at `t + DEBOUNCE_MS` and every later
call arrives before the pending timer fires (and in increasing time order),
the run cancels and reschedules at each call and emits exactly one trailing
write for the last call. -/
theorem debounceRun_chain {σ : Type} :
    ∀ (l : List (Nat × σ)) (t : Nat) (st : σ) (writes : List (Nat × σ)),
      List.Chain (fun p q => p.1 < q.1 ∧ q.1 < p.1 + DEBOUNCE_MS) (t, st) l →
      debounceRun (some (t + DEBOUNCE_MS, st)) writes l =
        writes ++ [((((t, st) :: l).getLast (List.cons_ne_nil _ _)).1 + DEBOUNCE_MS,
          (((t, st) :: l).getLast (List.cons_ne_nil _ _)).2)] := by
  intro l
  induction l with
  | nil => intro t st writes _; simp [debounceRun]
  | cons q l' ih =>
    intro t st writes hch
    cases hch with
    | cons hab hch' =>
      obtain ⟨q1, q2⟩ := q
      have hnot : ¬ (t + DEBOUNCE_MS ≤ q1) := Nat.not_le.mpr hab.2
      have step :
          debounceRun (some (t + DEBOUNCE_MS, st)) writes ((q1, q2) :: l') =
            debounceRun (some (q1 + DEBOUNCE_MS, q2)) writes l' := by
        simp [debounceRun, hnot]
      rw [step, ih q1 q2 writes hch']
      have hlast :
          ((q1, q2) :: l').getLast (List.cons_ne_nil _ _) =
            ((t, st) :: (q1, q2) :: l').getLast (List.cons_ne_nil _ _) := by
        rw [List.getLast_cons (List.cons_ne_nil _ _)]
      rw [hlast]

/-- C8: for a nonempty sequence of saveToStorage calls in strictly
increasing time order where each call arrives less than DEBOUNCE_MS after
the previous one, exactly one storage write occurs, at the time of the
final call plus DEBOUNCE_MS, and it writes exactly the state passed to
that final call. -/
theorem c8_debounce_single_write {σ : Type} (t0 : Nat) (s0 : σ)
    (rest : List (Nat × σ))
    (hch : List.Chain (fun p q => p.1 < q.1 ∧ q.1 < p.1 + DEBOUNCE_MS) (t0, s0) rest) :
    debounceWrites ((t0, s0) :: rest) =
      [((((t0, s0) :: rest).getLast (List.cons_ne_nil _ _)).1 + DEBOUNCE_MS,
        (((t0, s0) :: rest).getLast (List.cons_ne_nil _ _)).2)] := by
  have step :
      debounceWrites ((t0, s0) :: rest) =
        debounceRun (some (t0 + DEBOUNCE_MS, s0)) [] rest := by
    simp [debounceWrites, debounceRun]
  rw [step, debounceRun_chain rest t0 s0 [] hch]
  simp

/-- Witness for c8_debounce_single_write: ten rapid mutations (100 ms
apart) produce exactly one write, 300 ms after the tenth call, carrying
the tenth state. -/
theorem c8_debounce_single_write_witness :
    debounceWrites
      [(0, 0), (100, 1), (200, 2), (300, 3), (400, 4), (500, 5), (600, 6),
        (700, 7), (800, 8), (900, (9 : Nat))] = [(1200, 9)] :=
  (c8_debounce_single_write 0 0
      [(100, 1), (200, 2), (300, 3), (400, 4), (500, 5), (600, 6), (700, 7),
        (800, 8), (900, 9)] (by
          simp only [List.chain_cons, List.Chain.nil, DEBOUNCE_MS]
          refine ⟨⟨?_, ?_⟩, ⟨?_, ?_⟩, ⟨?_, ?_⟩, ⟨?_, ?_⟩, ⟨?_, ?_⟩, ⟨?_, ?_⟩,
            ⟨?_, ?_⟩, ⟨?_, ?_⟩, ⟨?_, ?_⟩, trivial⟩ <;> decide)).trans (by decide)


/-- Auxiliary: looking an id up after markAsRead's map finds the same
conversation with its unread count zeroed. -/
theorem find?_map_zeroUnread (l : List Conversation) (id : String) :
    (l.map (fun conv => if conv.id = id then { conv with unreadCount := 0 } else conv)).find?
        (fun c => c.id = id) =
      (l.find? (fun c => c.id = id)).map (fun c => { c with unreadCount := 0 }) := by
  induction l with
  | nil => rfl
  | cons c t ih =>
    by_cases h : c.id = id
    · simp [List.find?_cons, h]
    · simp [List.find?_cons, h, ih]

/-- C2: addMessage increments exactly the target conversation's
unreadCount by one precisely when the target is not the active
conversation and the appended role is assistant, leaving every other
count unchanged; markAsRead zeroes exactly the named conversation's
count; and after a conversation becomes active, the mark-as-read effect
leaves the active conversation with a zero unread count. -/
theorem c2_unread_accounting (s : ConversationsState) (cid mid content : String)
    (role : Role) (streaming : Option Bool) (now : Nat) (rid aid : String) :
    ((addMessage s cid role content streaming mid now).conversations.map
        Conversation.unreadCount =
      s.conversations.map (fun c =>
        if c.id = cid ∧ s.activeConversationId ≠ some cid ∧ role = Role.assistant then
          c.unreadCount + 1
        else c.unreadCount)) ∧
    ((markAsRead s rid).conversations.map Conversation.unreadCount =
      s.conversations.map (fun c => if c.id = rid then 0 else c.unreadCount)) ∧
    (∀ c : Conversation,
      getConversation (markReadOnActivate (setActiveConversation s (some aid))) aid =
        some c → c.unreadCount = 0) := by
  refine ⟨?_, ?_, ?_⟩
  · simp only [addMessage, List.map_map]
    apply List.map_congr_left
    intro c _
    by_cases h1 : c.id = cid <;>
      by_cases h2 : s.activeConversationId ≠ some cid ∧ role = Role.assistant <;>
        simp [h1, h2, Function.comp]
  · simp only [markAsRead, List.map_map]
    apply List.map_congr_left
    intro c _
    by_cases h : c.id = rid <;> simp [h, Function.comp]
  · intro c hc
    rw [show markReadOnActivate (setActiveConversation s (some aid)) =
        (match getConversation (setActiveConversation s (some aid)) aid with
          | some c0 =>
            if c0.unreadCount ≠ 0 then markAsRead (setActiveConversation s (some aid)) aid
            else setActiveConversation s (some aid)
          | none => setActiveConversation s (some aid)) from rfl] at hc
    cases hg : getConversation (setActiveConversation s (some aid)) aid with
    | none =>
      simp only [hg] at hc
      exact Option.noConfusion hc
    | some c0 =>
      simp only [hg] at hc
      by_cases hz : c0.unreadCount = 0
      · rw [if_neg (fun hne => hne hz)] at hc
        rw [hg] at hc
        cases hc
        exact hz
      · rw [if_pos hz] at hc
        have hfind : getConversation (markAsRead (setActiveConversation s (some aid)) aid) aid =
            (getConversation (setActiveConversation s (some aid)) aid).map
              (fun c => { c with unreadCount := 0 }) :=
          find?_map_zeroUnread _ aid
        rw [hfind, hg] at hc
        cases hc
        rfl

/-- Witness for c2_unread_accounting: a conversation with pending unread 3
becomes active; after the mark-as-read effect its count is zero. -/
theorem c2_unread_accounting_witness :
    ({ id := "a", agentId := "x", createdAt := 0, updatedAt := 0, messages := [],
        unreadCount := 0 } : Conversation).unreadCount = 0 :=
  (c2_unread_accounting
      { conversations :=
          [{ id := "a", agentId := "x", createdAt := 0, updatedAt := 0,
             messages := [], unreadCount := 3 }],
        activeConversationId := none }
      "c" "m" "x" Role.user none 0 "r" "a").2.2
    { id := "a", agentId := "x", createdAt := 0, updatedAt := 0, messages := [],
      unreadCount := 0 } (by decide)

/-- Auxiliary: updating the last message maps its value through the
spread, leaving the rest of the list untouched. -/
theorem getLast?_updateLast (u : MessageUpdate) :
    ∀ l : List ChatMessage,
      (updateLast u l).getLast? = (l.getLast?).map (fun m => applyUpdate m u) := by
  intro l
  induction l with
  | nil => rfl
  | cons m t ih =>
    cases t with
    | nil => rfl
    | cons m2 t2 =>
      have hcons : ∃ x xs, updateLast u (m2 :: t2) = x :: xs := by
        cases t2 <;> exact ⟨_, _, rfl⟩
      obtain ⟨x, xs, hx⟩ := hcons
      calc (updateLast u (m :: m2 :: t2)).getLast?
          = (m :: updateLast u (m2 :: t2)).getLast? := rfl
        _ = (updateLast u (m2 :: t2)).getLast? := by
            rw [hx]; exact List.getLast?_cons_cons
        _ = ((m2 :: t2).getLast?).map (fun m => applyUpdate m u) := ih
        _ = ((m :: m2 :: t2).getLast?).map (fun m => applyUpdate m u) := by
            rw [List.getLast?_cons_cons]

/-- C3 counterexample: the invariant holds of a one-message state, and a
single updateLastMessage carrying a `timestamp` field (a value that
`Partial<ChatMessage>` accepts) breaks it: the last message's timestamp
becomes 9 while `updatedAt` stays 5. -/
theorem c3_counterexample :
    stateTimestampOK exTimestampState ∧
    ¬ stateTimestampOK (updateLastMessage exTimestampState "a" { timestamp := some 9 }) := by
  exact ⟨by decide, by decide⟩

/-- C3 amended: the updatedAt invariant is preserved by every store
operation at every argument, except that updateLastMessage preserves it
provided its update object does not carry a `timestamp` field (the source
only ever passes `content` and `isStreaming`). -/
theorem c3_invariant_preservation (s : ConversationsState) (h : stateTimestampOK s)
    (agentId newId msgId content : String) (now : Nat) (id cid : String)
    (aid : Option String) (role : Role) (streaming : Option Bool) (u : MessageUpdate) :
    stateTimestampOK (createConversation s agentId newId now) ∧
    stateTimestampOK (deleteConversation s id) ∧
    stateTimestampOK (setActiveConversation s aid) ∧
    stateTimestampOK (addMessage s cid role content streaming msgId now) ∧
    (u.timestamp = none → stateTimestampOK (updateLastMessage s cid u)) ∧
    stateTimestampOK (markAsRead s id) := by
  refine ⟨?_, ?_, ?_, ?_, fun hu => ?_, ?_⟩
  · intro c hc
    rcases List.mem_cons.mp hc with rfl | hmem
    · rfl
    · exact h c hmem
  · intro c hc
    exact h c (List.mem_of_mem_filter hc)
  · intro c hc
    exact h c hc
  · intro c hc
    simp only [addMessage, List.mem_map] at hc
    obtain ⟨c0, hc0, hfc⟩ := hc
    rw [← hfc]
    by_cases hid : c0.id = cid
    · rw [if_pos hid]
      simp [convTimestampOK, lastStamp, List.getLast?_concat]
    · rw [if_neg hid]
      exact h c0 hc0
  · intro c hc
    simp only [updateLastMessage, List.mem_map] at hc
    obtain ⟨c0, hc0, hfc⟩ := hc
    rw [← hfc]
    by_cases hid : c0.id = cid
    · rw [if_pos hid]
      have hbase := h c0 hc0
      show convTimestampOK _
      unfold convTimestampOK lastStamp at hbase ⊢
      rw [getLast?_updateLast]
      cases hm : c0.messages.getLast? with
      | none =>
        rw [hm] at hbase
        simpa using hbase
      | some m =>
        rw [hm] at hbase
        simp [applyUpdate, hu, hbase]
    · rw [if_neg hid]
      exact h c0 hc0
  · intro c hc
    simp only [markAsRead, List.mem_map] at hc
    obtain ⟨c0, hc0, hfc⟩ := hc
    rw [← hfc]
    by_cases hid : c0.id = id
    · rw [if_pos hid]
      exact h c0 hc0
    · rw [if_neg hid]
      exact h c0 hc0

/-- Witness for c3_invariant_preservation: a content-only streaming update
on the concrete one-message state keeps the invariant. -/
theorem c3_invariant_preservation_witness :
    stateTimestampOK (updateLastMessage exTimestampState "a" { content := some "Hello " }) :=
  (c3_invariant_preservation exTimestampState (by decide) "x" "n" "m" "t" 7 "a" "a"
      none Role.user none { content := some "Hello " }).2.2.2.2.1 rfl

/-- Auxiliary: orderedInsert passes over exactly the strictly more recent
elements, so a filter keeping one `updatedAt` value sees the inserted
element in front of its ties. -/
theorem filter_orderedInsert_updatedAt (k : Nat) (a : Conversation) :
    ∀ l : List Conversation,
      (List.orderedInsert updatedAtGE a l).filter (fun c => c.updatedAt = k) =
        if a.updatedAt = k then a :: l.filter (fun c => c.updatedAt = k)
        else l.filter (fun c => c.updatedAt = k) := by
  intro l
  induction l with
  | nil =>
    by_cases h : a.updatedAt = k <;> simp [List.orderedInsert, h]
  | cons b t ih =>
    by_cases hr : updatedAtGE a b
    · by_cases ha : a.updatedAt = k <;> simp [List.orderedInsert, hr, ha]
    · have hab : a.updatedAt < b.updatedAt := Nat.lt_of_not_le hr
      by_cases ha : a.updatedAt = k
      · have hb : ¬ b.updatedAt = k := by omega
        simp [List.orderedInsert, hr, ha, hb, ih]
      · by_cases hb : b.updatedAt = k <;> simp [List.orderedInsert, hr, ha, hb, ih]

/-- Auxiliary: the stable sort preserves the relative order of
conversations sharing an `updatedAt` value. -/
theorem filter_insertionSort_updatedAt (k : Nat) :
    ∀ l : List Conversation,
      (List.insertionSort updatedAtGE l).filter (fun c => c.updatedAt = k) =
        l.filter (fun c => c.updatedAt = k) := by
  intro l
  induction l with
  | nil => rfl
  | cons a t ih =>
    rw [List.insertionSort, filter_orderedInsert_updatedAt k a]
    by_cases ha : a.updatedAt = k <;> simp [ha, ih]

/-- Auxiliary: the head of the sorted list realizes the maximal
`updatedAt` value present in the list. -/
theorem head?_insertionSort_max (l : List Conversation) (e : Conversation)
    (he : e ∈ l) (hmax : ∀ x ∈ l, x.updatedAt ≤ e.updatedAt) :
    ∃ c', (List.insertionSort updatedAtGE l).head? = some c' ∧
      c'.updatedAt = e.updatedAt ∧ c' ∈ l := by
  have hperm := List.perm_insertionSort updatedAtGE l
  have hsorted := List.sorted_insertionSort updatedAtGE l
  cases hs : List.insertionSort updatedAtGE l with
  | nil =>
    rw [hs] at hperm
    exact absurd (hperm.mem_iff.mpr he) (List.not_mem_nil e)
  | cons h0 t0 =>
    rw [hs] at hperm hsorted
    have hh0 : h0 ∈ l := hperm.mem_iff.mp (List.mem_cons_self h0 t0)
    have hle : h0.updatedAt ≤ e.updatedAt := hmax h0 hh0
    have hge : e.updatedAt ≤ h0.updatedAt := by
      rcases List.mem_cons.mp (hperm.mem_iff.mpr he) with rfl | hin
      · exact Nat.le_refl _
      · exact (List.pairwise_cons.mp hsorted).1 e hin
    exact ⟨h0, rfl, Nat.le_antisymm hle hge, hh0⟩

/-- C6 counterexample: two conversations created at the same timestamp
(first a, then b; the store list is [b, a] since creation prepends).
The sorted view keeps internal-list order on the tie, listing the
LATER-inserted b first, while the claimed insertion-order tie break
(stable sort over creation order) lists a first. -/
theorem c6_counterexample :
    sortedConversations exTieState ≠ sortedByInsertionOrderTies exTieState ∧
    (sortedConversations exTieState).map Conversation.id = ["b", "a"] ∧
    (sortedByInsertionOrderTies exTieState).map Conversation.id = ["a", "b"] := by
  refine ⟨by decide, by decide, by decide⟩

/-- C6 amended: sortedConversations is always a permutation of the stored
conversations sorted by `updatedAt` descending, ties keeping the order of
the INTERNAL list (which lists more recently created conversations first,
the reverse of insertion order); appending a message moves the target
conversation to the front whenever its new timestamp is strictly greater
than every other conversation's `updatedAt`. -/
theorem c6_sorted_semantics :
    (∀ s : ConversationsState, (sortedConversations s).Sorted updatedAtGE) ∧
    (∀ s : ConversationsState, (sortedConversations s).Perm s.conversations) ∧
    (∀ (s : ConversationsState) (k : Nat),
      (sortedConversations s).filter (fun c => c.updatedAt = k) =
        s.conversations.filter (fun c => c.updatedAt = k)) ∧
    (∀ (s : ConversationsState) (cid content mid : String) (role : Role)
        (streaming : Option Bool) (now : Nat),
      (∃ c ∈ s.conversations, c.id = cid) →
      (∀ c ∈ s.conversations, c.id ≠ cid → c.updatedAt < now) →
      ∃ c', (sortedConversations (addMessage s cid role content streaming mid now)).head? =
          some c' ∧ c'.id = cid ∧ c'.updatedAt = now) := by
  refine ⟨?_, ?_, ?_, ?_⟩
  · intro s
    exact List.sorted_insertionSort updatedAtGE s.conversations
  · intro s
    exact List.perm_insertionSort updatedAtGE s.conversations
  · intro s k
    exact filter_insertionSort_updatedAt k s.conversations
  · intro s cid content mid role streaming now hex hlt
    have hmem1 : ∀ x ∈ (addMessage s cid role content streaming mid now).conversations,
        x.updatedAt ≤ now ∧ (x.id ≠ cid → x.updatedAt < now) := by
      intro x hx
      simp only [addMessage, List.mem_map] at hx
      obtain ⟨c0, hc0, hfc⟩ := hx
      by_cases h : c0.id = cid
      · rw [← hfc, if_pos h]
        exact ⟨Nat.le_refl _, fun hne => absurd h hne⟩
      · rw [← hfc, if_neg h]
        have := hlt c0 hc0 h
        exact ⟨Nat.le_of_lt this, fun _ => this⟩
    have hmem2 : ∃ e ∈ (addMessage s cid role content streaming mid now).conversations,
        e.id = cid ∧ e.updatedAt = now := by
      obtain ⟨c, hc, hcid⟩ := hex
      simp only [addMessage, List.mem_map]
      refine ⟨_, ⟨c, hc, rfl⟩, ?_⟩
      rw [if_pos hcid]
      exact ⟨hcid, rfl⟩
    obtain ⟨e, hemem, heid, heupd⟩ := hmem2
    obtain ⟨c', hhead, hupd', hmem'⟩ :=
      head?_insertionSort_max (addMessage s cid role content streaming mid now).conversations
        e hemem (fun x hx => heupd ▸ (hmem1 x hx).1)
    refine ⟨c', hhead, ?_, by rw [hupd', heupd]⟩
    by_contra hne
    have := (hmem1 c' hmem').2 hne
    rw [hupd', heupd] at this
    exact Nat.lt_irrefl now this

/-- Witness for c6_sorted_semantics: appending to conversation a at a
strictly later time brings it to the front of the sorted view. -/
theorem c6_sorted_semantics_witness :
    ∃ c', (sortedConversations (addMessage exTieState "a" Role.user "hi" none "m9" 9)).head? =
        some c' ∧ c'.id = "a" ∧ c'.updatedAt = 9 :=
  c6_sorted_semantics.2.2.2 exTieState "a" "hi" "m9" Role.user none 9
    (by decide) (by decide)

/-- Auxiliary: splitting at a separator peels off a separator-free prefix. -/
theorem splitCh_append (sep : Char) :
    ∀ (r rest : List Char), sep ∉ r →
      splitCh sep (r ++ sep :: rest) = r :: splitCh sep rest := by
  intro r
  induction r with
  | nil =>
    intro rest _
    simp [splitCh]
  | cons c r2 ih =>
    intro rest hmem
    have hc : ¬ c = sep := fun h => hmem (by rw [← h]; exact List.mem_cons_self c r2)
    have hr : sep ∉ r2 := fun h => hmem (List.mem_cons_of_mem c h)
    simp [splitCh, hc, ih rest hr]

/-- Auxiliary: a separator-free string splits into itself alone. -/
theorem splitCh_no_sep (sep : Char) :
    ∀ l : List Char, sep ∉ l → splitCh sep l = [l] := by
  intro l
  induction l with
  | nil => intro _; rfl
  | cons c r ih =>
    intro hmem
    have hc : ¬ c = sep := fun h => hmem (by rw [← h]; exact List.mem_cons_self c r)
    have hr : sep ∉ r := fun h => hmem (List.mem_cons_of_mem c h)
    simp [splitCh, hc, ih hr]

/-- Auxiliary: a chunk of whole newline-terminated records is consumed
record by record (the trailing empty line is a no-op). -/
theorem consumeChunk_lineJoin (g : List (List Char)) (st : ConsumerTrace)
    (hg : ∀ r ∈ g, '\n' ∉ r) :
    consumeChunk st (lineJoin g) = g.foldl consumeLine st := by
  have hsplit : ∀ g2 : List (List Char), (∀ r ∈ g2, '\n' ∉ r) →
      splitLines (lineJoin g2) = g2 ++ [[]] := by
    intro g2
    induction g2 with
    | nil => intro _; rfl
    | cons r g3 ih =>
      intro hh
      have hjoin : lineJoin (r :: g3) = r ++ '\n' :: lineJoin g3 := by
        simp [lineJoin]
      rw [show splitLines (lineJoin (r :: g3)) = splitCh '\n' (r ++ '\n' :: lineJoin g3) from by
        rw [hjoin]; rfl]
      rw [splitCh_append '\n' r (lineJoin g3) (hh r (List.mem_cons_self r g3))]
      rw [show splitCh '\n' (lineJoin g3) = splitLines (lineJoin g3) from rfl]
      rw [ih (fun x hx => hh x (List.mem_cons_of_mem r hx))]
      rfl
  show (splitLines (lineJoin g)).foldl consumeLine st = _
  rw [hsplit g hg, List.foldl_append]
  rfl

/-- Auxiliary: chunk boundaries at record boundaries are invisible — the
loop over chunks equals the loop over the flattened record list. -/
theorem foldl_consumeChunk_map :
    ∀ groups : List (List (List Char)),
      (∀ g ∈ groups, ∀ r ∈ g, '\n' ∉ r) →
      ∀ st, (groups.map lineJoin).foldl consumeChunk st = groups.flatten.foldl consumeLine st := by
  intro groups
  induction groups with
  | nil => intro _ st; rfl
  | cons g gs ih =>
    intro hg st
    simp only [List.map_cons, List.foldl_cons, List.flatten_cons, List.foldl_append]
    rw [consumeChunk_lineJoin g st (hg g (List.mem_cons_self g gs))]
    exact ih (fun x hx => hg x (List.mem_cons_of_mem g hx)) _

/-- Auxiliary: closed form of the consumer loop over a record list — the
accumulator collects every parsed text and the call trace records the
running accumulator at each nonempty parsed text. -/
theorem foldl_consumeLine_spec :
    ∀ (rs : List (List Char)) (st : ConsumerTrace),
      rs.foldl consumeLine st =
        { acc := st.acc ++ (rs.map parseStreamChunk).flatten,
          contentCalls := st.contentCalls ++ runningCalls st.acc rs } := by
  intro rs
  induction rs with
  | nil => intro st; simp [runningCalls]
  | cons r rest ih =>
    intro st
    by_cases ht : parseStreamChunk r = []
    · simp only [List.foldl_cons]
      rw [show consumeLine st r = st from by simp [consumeLine, ht]]
      rw [ih st]
      simp [runningCalls, ht]
    · simp only [List.foldl_cons]
      rw [show consumeLine st r =
          { acc := st.acc ++ parseStreamChunk r,
            contentCalls := st.contentCalls ++ [st.acc ++ parseStreamChunk r] } from by
        simp [consumeLine, ht]]
      rw [ih _]
      simp [runningCalls, ht, List.append_assoc]

/-- C5 counterexample: the line `0:""` matches the text-record pattern
(empty payload), is delivered as a whole newline-terminated record, yet
the consumer performs NO updateLastMessage call for it (the claimed trace
has one call, with the empty accumulator), because the code skips falsy
parsed text. -/
theorem c5_counterexample :
    textRecordPayload (lc "0:\"\"") = some [] ∧
    (consumeChunks [lc "0:\"\"\n"]).contentCalls = [] ∧
    (claimTrace (splitLines (lc "0:\"\"\n"))).contentCalls = [[]] ∧
    ([] : List (List Char)) ≠ [[]] := by
  refine ⟨rfl, rfl, rfl, by decide⟩

/-- C5 amended: over chunks made of whole newline-terminated records, the
consumer appends each matched line's unescaped payload to the accumulator
and calls updateLastMessage with the accumulator after each matched line
whose unescaped payload is nonempty (a `0:""` record is skipped
entirely); in particular the two chunks of the scenario leave the
assistant message with content `Hello there ` and `isStreaming` false. -/
theorem c5_stream_consumption :
    (∀ groups : List (List (List Char)),
      (∀ g ∈ groups, ∀ r ∈ g, '\n' ∉ r) →
      consumeChunks (groups.map lineJoin) =
        { acc := (groups.flatten.map parseStreamChunk).flatten,
          contentCalls := runningCalls [] groups.flatten }) ∧
    ((getConversation (runStreamIntoStore exStreamState "c1"
          [lc "0:\"Hello \"\n", lc "0:\"there \"\n"]) "c1").map
        (fun c => c.messages.map (fun m => (m.content, m.role, m.isStreaming))) =
      some [("hi", Role.user, none), ("Hello there ", Role.assistant, some false)]) := by
  constructor
  · intro groups hg
    show (groups.map lineJoin).foldl consumeChunk { acc := [], contentCalls := [] } = _
    rw [foldl_consumeChunk_map groups hg _, foldl_consumeLine_spec]
    simp
  · rfl

/-- Witness for c5_stream_consumption at the two-chunk scenario stream. -/
theorem c5_stream_consumption_witness :
    consumeChunks ([[lc "0:\"Hello \""], [lc "0:\"there \""]].map lineJoin) =
      { acc := (([[lc "0:\"Hello \""], [lc "0:\"there \""]].flatten).map
          parseStreamChunk).flatten,
        contentCalls := runningCalls [] [[lc "0:\"Hello \""], [lc "0:\"there \""]].flatten } :=
  c5_stream_consumption.1 [[lc "0:\"Hello \""], [lc "0:\"there \""]] (by decide)

/-- Auxiliary: a quote-free line segment has no last-quote prefix. -/
theorem upToLastQuote_eq_none :
    ∀ l : List Char, '"' ∉ l → upToLastQuote l = none := by
  intro l
  induction l with
  | nil => intro _; rfl
  | cons c cs ih =>
    intro h
    have hc : ¬ c = '"' := fun hh => h (by rw [← hh]; exact List.mem_cons_self c cs)
    have hcs : '"' ∉ cs := fun hh => h (List.mem_cons_of_mem c hh)
    simp [upToLastQuote, ih hcs, hc]

/-- Auxiliary: a line whose first character is not `0` never matches. -/
theorem textRecordPayload_none_first (c0 : Char) (rest : List Char) (h : ¬ c0 = '0') :
    textRecordPayload (c0 :: rest) = none := by
  cases rest with
  | nil => rfl
  | cons c1 rest1 =>
    cases rest1 with
    | nil => rfl
    | cons c2 rest2 => simp [textRecordPayload, h]

/-- Auxiliary: a line whose third character is not a quote never matches. -/
theorem textRecordPayload_none_third (c0 c1 c2 : Char) (rest : List Char) (h : ¬ c2 = '"') :
    textRecordPayload (c0 :: c1 :: c2 :: rest) = none := by
  simp [textRecordPayload, h]

/-- Auxiliary: after the opening `0:"`, a quote-free remainder has no
closing quote, so the record pattern does not match. -/
theorem textRecordPayload_open_noquote (q : List Char) (hq : '"' ∉ q) :
    textRecordPayload ('0' :: ':' :: '"' :: q) = none := by
  show (if ('0' : Char) = '0' ∧ (':' : Char) = ':' ∧ ('"' : Char) = '"' then
      upToLastQuote (q.takeWhile (fun c => ¬ c = '\n'))
    else none) = none
  rw [if_pos ⟨rfl, rfl, rfl⟩]
  exact upToLastQuote_eq_none _ (fun h => hq ((List.takeWhile_sublist _).subset h))

/-- Auxiliary: a quote-free fragment followed by the closing quote of a
split record never matches the pattern. -/
theorem textRecordPayload_tail_fragment (s : List Char) (hs : '"' ∉ s) :
    textRecordPayload (s ++ ['"']) = none := by
  cases s with
  | nil => rfl
  | cons c1 s1 =>
    cases s1 with
    | nil => rfl
    | cons c2 s2 =>
      cases s2 with
      | nil =>
        simp only [List.cons_append, List.nil_append]
        simp [textRecordPayload, upToLastQuote]
      | cons c3 s3 =>
        have hc3 : ¬ c3 = '"' := fun hh => hs (by
          rw [← hh] at hs
          exact absurd (List.mem_cons_of_mem c1 (List.mem_cons_of_mem c2
            (List.mem_cons_self c3 s3))) hs)
        simp only [List.cons_append]
        exact textRecordPayload_none_third c1 c2 c3 _ hc3

/-- C10 counterexample: the record `0:"\"hi\" "` (an escaped-quote payload,
as the endpoint produces for quoted words) split right after its first
escaped quote: the first fragment DOES match the text-record pattern — the
escaped quote serves as a closing quote — so parseStreamChunk returns a
spurious backslash, which the consumer appends to the accumulator. -/
theorem c10_counterexample :
    parseStreamChunk (lc "0:\"\\\"") = ['\\'] ∧
    parseStreamChunk (lc "0:\"\\\"") ≠ [] ∧
    (consumeChunks [lc "0:\"\\\"", lc "hi\\\" \"\n"]).acc = ['\\'] := by
  refine ⟨rfl, by decide, rfl⟩

/-- C10 amended: for a text record whose quoted payload contains no quote
character (true of every record over quote-free words), splitting the
record line anywhere across two read chunks makes both fragments
non-matching — parseStreamChunk returns the empty string on each — and the
consumer, which splits each chunk into lines independently and keeps no
partial-line buffer, appends none of the record's text and performs no
content update. -/
theorem c10_split_record_dropped (p : List Char) (k : Nat)
    (hq : '"' ∉ p) (hn : '\n' ∉ p) (h1 : 0 < k) (h2 : k < (textRecord p).length) :
    parseStreamChunk ((textRecord p).take k) = [] ∧
    parseStreamChunk ((textRecord p).drop k) = [] ∧
    consumeChunks [(textRecord p).take k, (textRecord p).drop k ++ ['\n']] =
      { acc := [], contentCalls := [] } := by
  have hnr : '\n' ∉ textRecord p := by
    simp only [textRecord, List.mem_cons, List.mem_append, List.mem_singleton]
    push_neg
    exact ⟨by decide, by decide, by decide, hn, by decide⟩
  have hfrag1 : parseStreamChunk ((textRecord p).take k) = [] := by
    match k, h1 with
    | 1, _ => rfl
    | 2, _ => rfl
    | (k3 + 3), _ =>
      have hk3 : k3 ≤ p.length := by
        simp only [textRecord] at h2
        simp at h2
        omega
      have htake : (textRecord p).take (k3 + 3) = '0' :: ':' :: '"' :: p.take k3 := by
        simp [textRecord, List.take_append_of_le_length hk3]
      rw [htake]
      have hqt : '"' ∉ p.take k3 := fun h => hq ((List.take_sublist k3 p).subset h)
      simp [parseStreamChunk, textRecordPayload_open_noquote _ hqt]
  have hfrag2 : parseStreamChunk ((textRecord p).drop k) = [] := by
    match k, h1 with
    | 1, _ =>
      show parseStreamChunk (':' :: '"' :: (p ++ ['"'])) = []
      simp [parseStreamChunk, textRecordPayload_none_first ':' _ (by decide)]
    | 2, _ =>
      show parseStreamChunk ('"' :: (p ++ ['"'])) = []
      simp [parseStreamChunk, textRecordPayload_none_first '"' _ (by decide)]
    | (k3 + 3), _ =>
      have hk3 : k3 ≤ p.length := by
        simp only [textRecord] at h2
        simp at h2
        omega
      have hdrop : (textRecord p).drop (k3 + 3) = p.drop k3 ++ ['"'] := by
        simp [textRecord, List.drop_append_of_le_length hk3]
      rw [hdrop]
      have hqd : '"' ∉ p.drop k3 := fun h => hq ((List.drop_sublist k3 p).subset h)
      simp [parseStreamChunk, textRecordPayload_tail_fragment _ hqd]
  refine ⟨hfrag1, hfrag2, ?_⟩
  have hn1 : '\n' ∉ (textRecord p).take k :=
    fun h => hnr ((List.take_sublist k _).subset h)
  have hn2 : '\n' ∉ (textRecord p).drop k :=
    fun h => hnr ((List.drop_sublist k _).subset h)
  show consumeChunk (consumeChunk { acc := [], contentCalls := [] } ((textRecord p).take k))
      ((textRecord p).drop k ++ ['\n']) = _
  have hstep1 : consumeChunk { acc := [], contentCalls := [] } ((textRecord p).take k) =
      { acc := [], contentCalls := [] } := by
    show (splitLines ((textRecord p).take k)).foldl consumeLine _ = _
    rw [show splitLines ((textRecord p).take k) = [(textRecord p).take k] from
      splitCh_no_sep '\n' _ hn1]
    simp [consumeLine, hfrag1]
  rw [hstep1]
  show (splitLines ((textRecord p).drop k ++ ['\n'])).foldl consumeLine _ = _
  rw [show splitLines ((textRecord p).drop k ++ ['\n']) =
      (textRecord p).drop k :: splitLines [] from splitCh_append '\n' _ [] hn2]
  simp only [List.foldl_cons]
  rw [show consumeLine { acc := [], contentCalls := [] } ((textRecord p).drop k) =
      { acc := [], contentCalls := [] } from by simp [consumeLine, hfrag2]]
  rfl

/-- Witness for c10_split_record_dropped: the record `0:"ab "` split after
its fifth character. -/
theorem c10_split_record_dropped_witness :
    parseStreamChunk ((textRecord (lc "ab ")).take 5) = [] ∧
    parseStreamChunk ((textRecord (lc "ab ")).drop 5) = [] ∧
    consumeChunks [(textRecord (lc "ab ")).take 5, (textRecord (lc "ab ")).drop 5 ++ ['\n']] =
      { acc := [], contentCalls := [] } :=
  c10_split_record_dropped (lc "ab ") 5 (by decide) (by decide) (by decide) (by decide)

/-- C7 counterexample: the stored value whose parsed shape is malformed
(`conversations` is the number 5, not an array) is NOT replaced by the
empty state: load returns the number 5 as the conversations value
unvalidated, because the code only substitutes falsy fields. -/
theorem c7_counterexample :
    loadFromStorage (some "\x7b\"conversations\":5\x7d") = (Json.num ['5'], Json.null) ∧
    loadFromStorage (some "\x7b\"conversations\":5\x7d") ≠ emptyLoadedState ∧
    isJsonArr (loadFromStorage (some "\x7b\"conversations\":5\x7d")).1 = false := by
  refine ⟨rfl, ?_, rfl⟩
  intro h
  exact absurd (congrArg (fun p => isJsonArr p.1) h) (by decide)

/-- C7 amended: load never throws and returns the empty state
`(conversations = [], activeConversationId = null)` whenever the storage
key is missing, the stored value is the empty string, the stored value is
not valid JSON, or it parses to JSON null (whose member access throws and
is caught); the concrete stored value `{not json` yields the empty state.
A parsed value of any other shape is NOT validated: its truthy fields are
returned as they are. -/
theorem c7_load_fail_open :
    loadFromStorage none = emptyLoadedState ∧
    loadFromStorage (some "") = emptyLoadedState ∧
    (∀ s : String, jsonParse s.data = none → loadFromStorage (some s) = emptyLoadedState) ∧
    (∀ s : String, jsonParse s.data = some Json.null →
      loadFromStorage (some s) = emptyLoadedState) ∧
    loadFromStorage (some "\x7bnot json") = emptyLoadedState := by
  refine ⟨rfl, rfl, ?_, ?_, rfl⟩
  · intro s hp
    by_cases he : s = ""
    · rw [he]; rfl
    · simp [loadFromStorage, he, hp]
  · intro s hp
    by_cases he : s = ""
    · rw [he]; rfl
    · simp [loadFromStorage, he, hp]

/-- Witness for c7_load_fail_open at the invalid-JSON scenario value. -/
theorem c7_load_fail_open_witness :
    loadFromStorage (some "\x7bnot json") = emptyLoadedState :=
  c7_load_fail_open.2.2.1 "\x7bnot json" rfl

/-- C4: the route handler has no try/catch, so a request whose body is
unparseable (`{not json`), parses to null (destructuring throws), or
lacks a usable `messages` value (`{}` makes `messages.length` throw)
escapes as an uncaught exception — the framework turns this into a 500
server error, not a 4xx client-error response. -/
theorem c4_endpoint_crashes_on_malformed_body :
    POST (lc "\x7bnot json") = Except.error () ∧
    POST (lc "null") = Except.error () ∧
    POST (lc "\x7b\x7d") = Except.error () :=
  ⟨rfl, rfl, rfl⟩

/-- C9 counterexample: on scenario D's request (agent console, last user
message `status?`), the emitted records are NOT one per
whitespace-separated word of the selected reply — the reply contains a
double newline, which `split(' ')` does not split — while they ARE one per
space-separated token (plus the e: and d: records). -/
theorem c9_counterexample :
    getOk (POST exC9Body) ≠
      some ((wsWords (mockResponseFor (lc "console") (lc "status?"))).map wordChunk ++
        [eRecord, dRecord]) ∧
    getOk (POST exC9Body) =
      some ((splitCh ' ' (mockResponseFor (lc "console") (lc "status?"))).map wordChunk ++
        [eRecord, dRecord]) := by
  refine ⟨by decide, rfl⟩

/-- C9 amended: for every request whose body parses and whose handler
destructuring does not throw, the endpoint emits exactly one text record
`0:"<word-with-escaped-quotes> "` with trailing newline per SPACE-separated
token of the selected reply (agent-specific template for the four known
agent keys, generic fallback otherwise, with the last message's content —
regardless of its role — interpolated, or `nothing` when falsy), followed
by exactly one e: metadata record and one terminal d: record, and then the
stream closes. -/
theorem c9_emission (body : List Char) (mv av lm : Option Json)
    (hreq : reqFields body = Except.ok (mv, av))
    (hlast : lastMessageVal mv = Except.ok lm) :
    POST body =
      Except.ok ((splitCh ' ' (mockResponseFor (jsValText av) (saidText lm))).map wordChunk ++
        [eRecord, dRecord]) := by
  simp [POST, hreq, hlast]

/-- Witness for c9_emission at the scenario D request body. -/
theorem c9_emission_witness :
    POST exC9Body =
      Except.ok ((splitCh ' '
        (mockResponseFor (jsValText (some (Json.str (lc "console"))))
          (saidText (some (Json.obj
            [(lc "role", Json.str (lc "user")),
             (lc "content", Json.str (lc "status?"))]))))).map wordChunk ++
        [eRecord, dRecord]) :=
  c9_emission exC9Body
    (some (Json.arr [Json.obj
      [(lc "role", Json.str (lc "user")), (lc "content", Json.str (lc "status?"))]]))
    (some (Json.str (lc "console")))
    (some (Json.obj
      [(lc "role", Json.str (lc "user")), (lc "content", Json.str (lc "status?"))]))
    rfl rfl
